import Mathlib

/-!
Verification of the `lsh` shell (`src/main.c`) by a shallow embedding.

The program is a read-eval loop: `lsh_read_line` reads one line from stdin,
`lsh_split_line` tokenizes it with `strtok` on the delimiter set
`" \t\r\n\a"`, and `lsh_execute` dispatches on token 0: the parallel arrays
`builtin_str` / `builtin_func` hold the builtins `cd`, `help`, `exit`;
anything else goes to `lsh_launch` (fork / execvp / waitpid).

The embedding models the observable effects of each C function as a trace of
events (stdout writes, stderr writes, `chdir` calls, `fork` calls) paired
with the function's `int` return value (the continuation signal: 1 continue,
0 terminate). OS nondeterminism (`chdir` success, `fork` outcome, the
statuses `waitpid` reports) is an explicit environment parameter.
-/

/-- An observable effect of the shell process.
`out` is a write to stdout, `err` a diagnostic on stderr (`perror("lsh")` is
modelled as `err "lsh"` followed by the OS text, which we leave abstract),
`chdir` a `chdir(d)` system call, `fork` a `fork()` system call, and
`waited` the terminal status `waitpid` observed for the child (`none` when
the child never reaches a terminal state). -/
inductive Event where
  | out : String → Event
  | err : String → Event
  | chdir : String → Event
  | fork : Event
  | waited : Option Nat → Event
deriving DecidableEq, Repr

/-- One status reported by `waitpid` with `WUNTRACED`: the child exited with
a code, was terminated by a signal, or was stopped by a signal. -/
inductive WaitStatus where
  | exited : Nat → WaitStatus
  | signaled : Nat → WaitStatus
  | stopped : Nat → WaitStatus
deriving DecidableEq, Repr

/-- `WIFEXITED(status)` of `<sys/wait.h>`. -/
def WIFEXITED : WaitStatus → Bool
  | .exited _ => true
  | _ => false

/-- `WIFSIGNALED(status)` of `<sys/wait.h>`. -/
def WIFSIGNALED : WaitStatus → Bool
  | .signaled _ => true
  | _ => false

/-- The outcome of the `fork()` call in `lsh_launch`: either `fork` fails
(returns a negative pid), or it succeeds and the parent observes the given
sequence of `waitpid` statuses for the child. A child whose `execvp` failed
is, from the parent's side, a child whose terminal status is
`exited EXIT_FAILURE`. -/
inductive ForkResult where
  | failed : ForkResult
  | parent : List WaitStatus → ForkResult

/-- The OS environment the shell runs against: whether `chdir` to a given
path succeeds, and what each `fork` for a given argv yields. -/
structure Env where
  chdirOk : String → Bool
  forkOf : List String → ForkResult

/-- `main.c:19` `char *builtin_str[] = ... ;` -/
def builtin_str : List String := ["cd", "help", "exit"]

/-- `main.c:31` `lsh_num_builtins`. -/
def lsh_num_builtins : Nat := builtin_str.length

/-- `main.c:44` `lsh_cd`: no `args[1]` means a diagnostic on stderr and no
`chdir` call; otherwise `chdir(args[1])`, with `perror` on failure. Always
returns 1. -/
def lsh_cd (env : Env) (args : List String) : Nat × List Event :=
  match args.get? 1 with
  | none => (1, [Event.err "lsh: expected argument to \x22cd\x22\n"])
  | some d =>
    if env.chdirOk d then (1, [Event.chdir d])
    else (1, [Event.chdir d, Event.err "lsh"])

/-- `main.c:61` `lsh_help`: banner, one line per entry of `builtin_str`,
closing line. Always returns 1. -/
def lsh_help (_env : Env) (_args : List String) : Nat × List Event :=
  (1,
    [Event.out "Dior\x27s LSH\n",
     Event.out "Type program names and arguments, and hit enter.\n",
     Event.out "The following are built in:\n"]
    ++ builtin_str.map (fun s => Event.out ("  " ++ s ++ "\n"))
    ++ [Event.out "Use the man command for information on other programs.\n"])

/-- `main.c:81` `lsh_exit`: always returns 0. -/
def lsh_exit (_env : Env) (_args : List String) : Nat × List Event :=
  (0, [])

/-- The parent's `do waitpid while (!WIFEXITED && !WIFSIGNALED)` loop of
`main.c:105-107`: the first terminal (exited or signaled) status observed;
`none` if the status sequence never reaches one (the wait blocks forever).
The exit code / signal number is returned only to be recorded and
discarded, as the C code does with `status`. -/
def lsh_wait : List WaitStatus → Option Nat
  | [] => none
  | s :: rest =>
    if WIFEXITED s || WIFSIGNALED s then
      match s with
      | .exited c => some c
      | .signaled c => some c
      | .stopped c => some c
    else lsh_wait rest

/-- `main.c:91` `lsh_launch`: fork; on fork failure `perror` and fall
through; otherwise the parent waits for a terminal status of the child.
Every branch returns 1. -/
def lsh_launch (env : Env) (args : List String) : Nat × List Event :=
  match env.forkOf args with
  | .failed => (1, [Event.fork, Event.err "lsh"])
  | .parent statuses => (1, [Event.fork, Event.waited (lsh_wait statuses)])

/-- `main.c:25` `builtin_func`, the handler array parallel to
`builtin_str`. -/
def builtin_func : List (Env → List String → Nat × List Event) :=
  [lsh_cd, lsh_help, lsh_exit]

/-- The scan of `main.c:126-130`: walk the parallel arrays (as their zip);
on the first `strcmp(args[0], builtin_str[i]) == 0` call
`builtin_func[i](args)`; past the end, `lsh_launch(args)`. -/
def execScan (env : Env) (args : List String) (a0 : String) :
    List (String × (Env → List String → Nat × List Event)) → Nat × List Event
  | [] => lsh_launch env args
  | (name, f) :: rest =>
    if a0 = name then f env args else execScan env args a0 rest

/-- `main.c:118` `lsh_execute`: empty argv is a no-op returning 1; otherwise
scan the builtin table, falling back to `lsh_launch`. -/
def lsh_execute (env : Env) (args : List String) : Nat × List Event :=
  match args with
  | [] => (1, [])
  | a0 :: _ => execScan env args a0 (builtin_str.zip builtin_func)

/-- `main.c:191` `LSH_TOK_DELIM " \t\r\n\a"` as a predicate on characters
(`'\x07'` is `'\a'`, the bell). -/
def isDelim (c : Char) : Bool :=
  c = ' ' || c = '\t' || c = '\r' || c = '\n' || c = '\x07'

/-- The repeated-`strtok` loop of `main.c:208-225` over a character list:
maximal runs of non-delimiter characters, in order. `acc` is the (reversed)
run being scanned. -/
def strtokAll : List Char → List Char → List (List Char)
  | [], acc => if acc.isEmpty then [] else [acc.reverse]
  | c :: cs, acc =>
    if isDelim c then
      if acc.isEmpty then strtokAll cs []
      else acc.reverse :: strtokAll cs []
    else strtokAll cs (c :: acc)

/-- `main.c:197` `lsh_split_line`: the token list `strtok` produces on the
delimiter set `" \t\r\n\a"`. -/
def lsh_split_line (line : List Char) : List String :=
  (strtokAll line []).map fun t => String.mk t

/-- `main.c:139` `lsh_read_line`, default (manual `getchar`) branch, control
flow over the remaining stdin stream: end of the list is `getchar() == EOF`,
on which the process exits with `EXIT_SUCCESS` (modelled as `.error 0`); a
`'\n'` ends the line, which is returned without it together with the rest of
the stream. -/
def lsh_read_line : List Char → Except Nat (List Char × List Char)
  | [] => .error 0
  | c :: cs =>
    if c = '\n' then .ok ([], cs)
    else
      match lsh_read_line cs with
      | .error e => .error e
      | .ok (l, rest) => .ok (c :: l, rest)

/-- The result of the one `getline` call in the `LSH_USE_STD_GETLINE` branch
of `lsh_read_line` (`main.c:141-152`): a line was read, or `getline`
returned -1 with `feof(stdin)` set (clean end of stream), or with it unset
(a read error). -/
inductive GetlineResult where
  | line : String → GetlineResult
  | eofClean : GetlineResult
  | readError : GetlineResult
deriving DecidableEq, Repr

/-- `main.c:141-152`, the `LSH_USE_STD_GETLINE` branch of `lsh_read_line`:
a read line is returned; clean EOF exits the process with `EXIT_SUCCESS`
(0); a read error `perror`s and exits with `EXIT_FAILURE` (1). -/
def lsh_read_line_getline : GetlineResult → Except Nat String
  | .line s => .ok s
  | .eofClean => .error 0
  | .readError => .error 1

/-- If the manual reader returns a line, the remaining stream is strictly
shorter than the one it was given: the `'\n'` was consumed. Justifies the
recursion of `lsh_loop`. -/
theorem lsh_read_line_rest_length :
    ∀ (s : List Char) (l rest : List Char),
      lsh_read_line s = .ok (l, rest) → rest.length < s.length := by
  intro s
  induction s with
  | nil => intro l rest h; simp [lsh_read_line] at h
  | cons c cs ih =>
    intro l rest h
    by_cases hc : c = '\n'
    · simp [lsh_read_line, hc] at h
      simp [h.2.symm]
    · simp only [lsh_read_line, if_neg hc] at h
      cases heq : lsh_read_line cs with
      | error e => rw [heq] at h; simp at h
      | ok p =>
        rw [heq] at h
        obtain ⟨l', rest'⟩ := p
        simp at h
        have := ih l' rest' heq
        simp [← h.2]
        omega

/-- `main.c:233` `lsh_loop` driven by the remaining stdin stream: print the
prompt, read a line (EOF inside the reader exits the process with the
reader's status), tokenize, execute, and loop while the status is nonzero.
Returns the event trace and the process exit status (`EXIT_SUCCESS = 0`
both when `exit` ends the loop and `main` returns, and when EOF ends the
process from inside the reader). -/
def lsh_loop (env : Env) (stream : List Char) : List Event × Nat :=
  match h : lsh_read_line stream with
  | .error e => ([Event.out "> "], e)
  | .ok (line, rest) =>
    let r := lsh_execute env (lsh_split_line line)
    if r.1 = 0 then
      (Event.out "> " :: r.2, 0)
    else
      let k := lsh_loop env rest
      (Event.out "> " :: (r.2 ++ k.1), k.2)
termination_by stream.length
decreasing_by exact lsh_read_line_rest_length stream line rest h

/-- `main.c:154` `LSH_RL_BUFSIZE`. -/
def LSH_RL_BUFSIZE : Nat := 1024

/-- `main.c:190` `LSH_TOK_BUFSIZE`. -/
def LSH_TOK_BUFSIZE : Nat := 64

/-- The buffer stores of the manual `lsh_read_line` loop
(`main.c:165-186`), as pairs (index written, capacity allocated at that
moment): each non-newline character is stored at `position`, then
`position` is incremented and the buffer grown by `LSH_RL_BUFSIZE` when
`position >= bufsize`; a newline stores the final `'\0'` at `position` and
returns; EOF exits with no further store. -/
def lsh_read_line_writes : List Char → Nat → Nat → List (Nat × Nat)
  | [], _, _ => []
  | c :: cs, position, bufsize =>
    if c = '\n' then [(position, bufsize)]
    else
      (position, bufsize) ::
        (if position + 1 ≥ bufsize then
          lsh_read_line_writes cs (position + 1) (bufsize + LSH_RL_BUFSIZE)
        else
          lsh_read_line_writes cs (position + 1) bufsize)

/-- The token-array stores of `lsh_split_line` (`main.c:208-226`): each
token pointer is stored at `position`, then `position` is incremented and
the array grown by `LSH_TOK_BUFSIZE` entries when `position >= bufsize`;
after the loop the terminating `NULL` is stored at `position`. -/
def lsh_split_line_writes : List (List Char) → Nat → Nat → List (Nat × Nat)
  | [], position, bufsize => [(position, bufsize)]
  | _ :: toks, position, bufsize =>
    (position, bufsize) ::
      (if position + 1 ≥ bufsize then
        lsh_split_line_writes toks (position + 1) (bufsize + LSH_TOK_BUFSIZE)
      else
        lsh_split_line_writes toks (position + 1) bufsize)

/-- A concrete environment for instantiations: every `chdir` succeeds and
every `fork` fails. -/
def sampleEnv : Env := ⟨fun _ => true, fun _ => ForkResult.failed⟩

/-- `lsh_cd` returns 1 on every path (`main.c:53`). -/
theorem lsh_cd_fst (env : Env) (args : List String) : (lsh_cd env args).1 = 1 := by
  unfold lsh_cd
  cases args.get? 1 with
  | none => rfl
  | some d => by_cases h : env.chdirOk d <;> simp [h]

/-- `lsh_launch` returns 1 on every path (`main.c:110`). -/
theorem lsh_launch_fst (env : Env) (args : List String) : (lsh_launch env args).1 = 1 := by
  unfold lsh_launch
  cases env.forkOf args <;> rfl

/-- `lsh_cd` never calls `fork`. -/
theorem fork_not_mem_lsh_cd (env : Env) (args : List String) :
    Event.fork ∉ (lsh_cd env args).2 := by
  unfold lsh_cd
  cases args.get? 1 with
  | none => simp
  | some d => by_cases h : env.chdirOk d <;> simp [h]

/-- `lsh_help` never calls `fork`. -/
theorem fork_not_mem_lsh_help (env : Env) (args : List String) :
    Event.fork ∉ (lsh_help env args).2 := by
  simp [lsh_help, builtin_str]

/-- `lsh_exit` never calls `fork`. -/
theorem fork_not_mem_lsh_exit (env : Env) (args : List String) :
    Event.fork ∉ (lsh_exit env args).2 := by
  simp [lsh_exit]

/-- Every token the `strtok` loop produces is a nonempty run of
non-delimiter characters, provided the run being scanned holds no
delimiter. -/
theorem strtokAll_sound (line : List Char) :
    ∀ acc, (∀ c ∈ acc, isDelim c = false) →
      ∀ t ∈ strtokAll line acc, t ≠ [] ∧ ∀ c ∈ t, isDelim c = false := by
  induction line with
  | nil =>
    intro acc hacc t ht
    by_cases he : acc.isEmpty
    · simp [strtokAll, he] at ht
    · simp [strtokAll, he] at ht
      subst ht
      refine ⟨by simpa using he, ?_⟩
      intro c hc
      exact hacc c (List.mem_reverse.mp hc)
  | cons c cs ih =>
    intro acc hacc t ht
    by_cases hd : isDelim c
    · by_cases he : acc.isEmpty
      · rw [strtokAll, if_pos hd, if_pos he] at ht
        exact ih [] (by simp) t ht
      · rw [strtokAll, if_pos hd, if_neg he] at ht
        rcases List.mem_cons.mp ht with rfl | ht
        · refine ⟨by simpa using he, ?_⟩
          intro x hx
          exact hacc x (List.mem_reverse.mp hx)
        · exact ih [] (by simp) t ht
    · rw [strtokAll, if_neg hd] at ht
      refine ih (c :: acc) ?_ t ht
      intro x hx
      rcases List.mem_cons.mp hx with rfl | hx
      · simpa using hd
      · exact hacc x hx

/-- A line made only of delimiter characters yields no token. -/
theorem strtokAll_all_delim (line : List Char) :
    (∀ c ∈ line, isDelim c = true) → strtokAll line [] = [] := by
  induction line with
  | nil => intro _; rfl
  | cons c cs ih =>
    intro h
    rw [strtokAll, if_pos (h c (List.mem_cons_self c cs))]
    simp only [List.isEmpty_nil, if_pos]
    exact ih fun x hx => h x (List.mem_cons_of_mem c hx)

/-- The loop on an empty stdin stream: one prompt, then the reader's
`exit(EXIT_SUCCESS)`. -/
theorem lsh_loop_nil (env : Env) : lsh_loop env [] = ([Event.out "> "], 0) := by
  rw [lsh_loop.eq_def]
  rfl

/-- If the first line's tokens make `lsh_execute` return `(0, [])`, the loop
ends after that single iteration with exit status 0 and no event beyond the
prompt. -/
theorem lsh_loop_exit_head (env : Env) (stream line rest : List Char)
    (h1 : lsh_read_line stream = .ok (line, rest))
    (h2 : lsh_execute env (lsh_split_line line) = (0, [])) :
    lsh_loop env stream = ([Event.out "> "], 0) := by
  rw [lsh_loop.eq_def]
  split
  · rename_i e heq
    rw [h1] at heq
    exact absurd heq (by simp)
  · rename_i line' rest' heq
    rw [h1] at heq
    injection heq with heq
    injection heq with hl hr
    subst hl
    simp [h2]

/-- Every store into the character buffer of the manual `lsh_read_line` loop
lands strictly below the capacity allocated at that moment, as long as the
loop is entered with `position < bufsize`: the buffer grows by
`LSH_RL_BUFSIZE` whenever the incremented position reaches the capacity. -/
theorem lsh_read_line_writes_bound (input : List Char) :
    ∀ position bufsize, position < bufsize →
      ∀ w ∈ lsh_read_line_writes input position bufsize, w.1 < w.2 := by
  induction input with
  | nil => intro p b _ w hw; simp [lsh_read_line_writes] at hw
  | cons c cs ih =>
    intro p b hpb w hw
    by_cases hc : c = '\n'
    · rw [lsh_read_line_writes, if_pos hc] at hw
      simp at hw
      simp [hw, hpb]
    · rw [lsh_read_line_writes, if_neg hc] at hw
      rcases List.mem_cons.mp hw with rfl | hw
      · exact hpb
      · by_cases hg : p + 1 ≥ b
        · rw [if_pos hg] at hw
          exact ih (p + 1) (b + LSH_RL_BUFSIZE) (by simp [LSH_RL_BUFSIZE]; omega) w hw
        · rw [if_neg hg] at hw
          exact ih (p + 1) b (by omega) w hw

/-- Every store into the token array of `lsh_split_line`, the terminating
`NULL` included, lands strictly below the capacity allocated at that moment,
as long as the loop is entered with `position < bufsize`. -/
theorem lsh_split_line_writes_bound (toks : List (List Char)) :
    ∀ position bufsize, position < bufsize →
      ∀ w ∈ lsh_split_line_writes toks position bufsize, w.1 < w.2 := by
  induction toks with
  | nil =>
    intro p b hpb w hw
    simp [lsh_split_line_writes] at hw
    simp [hw, hpb]
  | cons t toks ih =>
    intro p b hpb w hw
    rw [lsh_split_line_writes] at hw
    rcases List.mem_cons.mp hw with rfl | hw
    · exact hpb
    · by_cases hg : p + 1 ≥ b
      · rw [if_pos hg] at hw
        exact ih (p + 1) (b + LSH_TOK_BUFSIZE) (by simp [LSH_TOK_BUFSIZE]; omega) w hw
      · rw [if_neg hg] at hw
        exact ih (p + 1) b (by omega) w hw

/-- C1: for every name in `builtin_str` (`"cd"`, `"help"`, `"exit"`),
`lsh_execute` on an argv headed by that name equals the corresponding
handler of `builtin_func` and performs no `fork` — the Process Launcher is
never invoked, whatever the environment (so in particular whether or not a
like-named external executable exists). -/
theorem builtins_shadow_launcher (env : Env) (rest : List String) :
    (lsh_execute env ("cd" :: rest) = lsh_cd env ("cd" :: rest)
      ∧ Event.fork ∉ (lsh_execute env ("cd" :: rest)).2)
    ∧ (lsh_execute env ("help" :: rest) = lsh_help env ("help" :: rest)
      ∧ Event.fork ∉ (lsh_execute env ("help" :: rest)).2)
    ∧ (lsh_execute env ("exit" :: rest) = lsh_exit env ("exit" :: rest)
      ∧ Event.fork ∉ (lsh_execute env ("exit" :: rest)).2) :=
  ⟨⟨rfl, fork_not_mem_lsh_cd env ("cd" :: rest)⟩,
   ⟨rfl, fork_not_mem_lsh_help env ("help" :: rest)⟩,
   ⟨rfl, fork_not_mem_lsh_exit env ("exit" :: rest)⟩⟩

/-- C2: the tokenizer splits on the delimiter set space, tab, CR, NL, bell
(`isDelim`), yields only non-empty tokens free of delimiter characters, and
on `"  ls   -la  "` yields exactly `["ls", "-la"]`: leading, trailing and
repeated delimiters collapse. -/
theorem tokenizer_splits_on_delims :
    lsh_split_line "  ls   -la  ".toList = ["ls", "-la"]
    ∧ ∀ (line : List Char) (t : String), t ∈ lsh_split_line line →
        t ≠ "" ∧ ∀ c ∈ t.toList, isDelim c = false := by
  refine ⟨by decide, ?_⟩
  intro line t ht
  obtain ⟨l, hl, rfl⟩ := List.mem_map.mp ht
  obtain ⟨hne, hchars⟩ := strtokAll_sound line [] (by simp) l hl
  constructor
  · intro h
    apply hne
    have : (String.mk l).data = ("" : String).data := by rw [h]
    simpa using this
  · intro c hc
    exact hchars c (by simpa using hc)

/-- C3: `lsh_exit` ignores its arguments and returns the continuation
signal 0; dispatching any token list headed by `"exit"` yields `(0, [])`;
and a stream whose first line tokenizes to an `"exit"`-headed list makes
the read-eval loop stop after that iteration — the trace is the single
prompt and the rest of the stream is never touched. -/
theorem exit_stops_loop (env : Env) (args : List String)
    (stream line rest : List Char)
    (h1 : lsh_read_line stream = .ok (line, rest))
    (h2 : (lsh_split_line line).head? = some "exit") :
    lsh_exit env ("exit" :: args) = (0, [])
    ∧ lsh_execute env (lsh_split_line line) = (0, [])
    ∧ lsh_loop env stream = ([Event.out "> "], 0) := by
  have hexec : lsh_execute env (lsh_split_line line) = (0, []) := by
    cases hsp : lsh_split_line line with
    | nil => rw [hsp] at h2; simp at h2
    | cons a0 t =>
      rw [hsp] at h2
      simp at h2
      subst h2
      rfl
  exact ⟨rfl, hexec, lsh_loop_exit_head env stream line rest h1 hexec⟩

theorem exit_stops_loop_witness :
    lsh_exit sampleEnv ["exit", "now"] = (0, [])
    ∧ lsh_execute sampleEnv (lsh_split_line "exit now".toList) = (0, [])
    ∧ lsh_loop sampleEnv "exit now\nls\n".toList = ([Event.out "> "], 0) :=
  exit_stops_loop sampleEnv ["now"] "exit now\nls\n".toList "exit now".toList
    "ls\n".toList rfl (by decide)

/-- C4: `lsh_launch` returns continuation 1 in every case: when `fork`
fails, and for every sequence of child statuses the parent can observe —
in particular a child whose `execvp` failed (it exits `EXIT_FAILURE`), a
child exiting with any code, and a child killed by any signal. The
universally quantified environment ranges over all these outcomes. -/
theorem launcher_always_continues (env : Env) (args : List String) :
    (lsh_launch env args).1 = 1 :=
  lsh_launch_fst env args

/-- C5: `lsh_cd` on the argv `["cd"]` writes exactly the missing-argument
diagnostic to stderr, performs no `chdir` call, and returns 1. -/
theorem cd_missing_argument (env : Env) :
    lsh_cd env ["cd"] = (1, [Event.err "lsh: expected argument to \x22cd\x22\n"])
    ∧ ∀ d, Event.chdir d ∉ (lsh_cd env ["cd"]).2 := by
  refine ⟨rfl, ?_⟩
  intro d
  simp [lsh_cd]

/-- C6: end-of-stream as the very first input makes the line reader exit the
process with `EXIT_SUCCESS` (status 0) — in the manual branch and in the
`getline` branch alike — and the whole loop's trace is the bare prompt: no
banner is printed and no builtin runs. -/
theorem immediate_eof_success (env : Env) :
    lsh_read_line [] = .error 0
    ∧ lsh_read_line_getline .eofClean = .error 0
    ∧ lsh_loop env [] = ([Event.out "> "], 0) :=
  ⟨rfl, rfl, lsh_loop_nil env⟩

/-- C7: a line-read failure that is not clean end-of-stream (`getline`
returns -1 with `feof` unset, `main.c:147-149`) exits the process with
`EXIT_FAILURE` (status 1). -/
theorem read_error_failure :
    lsh_read_line_getline .readError = .error 1 := rfl

/-- C8: tokenizing the empty line, or any line of delimiter characters
only, yields the empty token list; and dispatching the empty token list is
a no-op that returns continuation 1 with no event. -/
theorem empty_line_noop :
    lsh_split_line [] = []
    ∧ (∀ line : List Char, (∀ c ∈ line, isDelim c = true) → lsh_split_line line = [])
    ∧ ∀ env : Env, lsh_execute env [] = (1, []) := by
  refine ⟨rfl, ?_, fun _ => rfl⟩
  intro line h
  simp [lsh_split_line, strtokAll_all_delim line h]

/-- C9: every token list whose head is not `"exit"` — the empty list, the
builtins `cd` and `help`, and every external name — makes `lsh_execute`
return continuation 1: `lsh_exit` is the only path that can return 0. -/
theorem only_exit_stops (env : Env) (args : List String)
    (h : args.head? ≠ some "exit") :
    (lsh_execute env args).1 = 1 := by
  match args with
  | [] => rfl
  | a0 :: rest =>
    simp only [List.head?_cons, ne_eq, Option.some.injEq] at h
    show (execScan env (a0 :: rest) a0 (builtin_str.zip builtin_func)).1 = 1
    simp only [builtin_str, builtin_func, List.zip_cons_cons, List.zip_nil_right,
      execScan]
    by_cases h1 : a0 = "cd"
    · rw [if_pos h1]
      exact lsh_cd_fst env (a0 :: rest)
    · rw [if_neg h1]
      by_cases h2 : a0 = "help"
      · rw [if_pos h2]
        rfl
      · rw [if_neg h2, if_neg h]
        exact lsh_launch_fst env (a0 :: rest)

theorem only_exit_stops_witness : (lsh_execute sampleEnv ["ls", "-la"]).1 = 1 :=
  only_exit_stops sampleEnv ["ls", "-la"] (by decide)

/-- C10: starting from the initial capacities of the source
(`LSH_RL_BUFSIZE = 1024` characters, `LSH_TOK_BUFSIZE = 64` pointers),
every store of the line reader (each character and the final `'\0'`) and
every store of the tokenizer (each token pointer and the final `NULL`)
lands at an index strictly below the capacity allocated at the moment of
the store, for every input. -/
theorem buffer_writes_in_bounds :
    (∀ (input : List Char) (w : Nat × Nat),
        w ∈ lsh_read_line_writes input 0 LSH_RL_BUFSIZE → w.1 < w.2)
    ∧ ∀ (toks : List (List Char)) (w : Nat × Nat),
        w ∈ lsh_split_line_writes toks 0 LSH_TOK_BUFSIZE → w.1 < w.2 :=
  ⟨fun input w hw =>
    lsh_read_line_writes_bound input 0 LSH_RL_BUFSIZE (by simp [LSH_RL_BUFSIZE]) w hw,
   fun toks w hw =>
    lsh_split_line_writes_bound toks 0 LSH_TOK_BUFSIZE (by simp [LSH_TOK_BUFSIZE]) w hw⟩
